import Mathlib

/-!
Shallow embedding of the discord-scraper repository (`discord_scraper.py`
and `discord_scraper_gsheets.py`): the keyword filter, the Google-Sheets
deduplicating sink, and the paginated fetch loop, together with theorems
settling the specification claims.

Python strings are modelled as lists of characters (`List Char`), so that
`s.lower()` is a character-wise map and `needle in hay` is substring
containment; Python dictionaries with possibly-missing keys become
structures with `Option` fields, `d.get(k, default)` becoming `Option.getD`.
-/

/-- Python `s.lower()`, on strings modelled as lists of characters. -/
def lowerStr (s : List Char) : List Char := s.map Char.toLower

/-- Helper for the Python substring test: does `hay` start with `needle`? -/
def startsWith : List Char → List Char → Bool
  | _, [] => true
  | [], _ :: _ => false
  | c :: hs, d :: ns => c = d && startsWith hs ns

/-- Python substring test `needle in hay` (for `str` operands). -/
def containsSub (needle : List Char) : List Char → Bool
  | [] => startsWith [] needle
  | c :: hs => startsWith (c :: hs) needle || containsSub needle hs

/-- A message as seen by `KeywordFilter.filter_messages`: a dictionary that
may lack the `content` key and may or may not carry a `matched_keywords`
key (which the filter adds by mutation in the source). -/
structure FMsg where
  content : Option (List Char)
  matched_keywords : Option (List (List Char))
deriving DecidableEq, Repr

/-- `KeywordFilter`: holds `self.keywords`, already lower-cased by
`__init__`. -/
structure KeywordFilter where
  keywords : List (List Char)
deriving DecidableEq, Repr

/-- `KeywordFilter.__init__`: `self.keywords = [k.lower() for k in keywords]`. -/
def KeywordFilter.init (raw : List (List Char)) : KeywordFilter :=
  ⟨raw.map lowerStr⟩

/-- The loop's guard `any(keyword in content for keyword in self.keywords)`
with `content = message.get("content", "").lower()`. -/
def KeywordFilter.matchesB (kf : KeywordFilter) (message : FMsg) : Bool :=
  kf.keywords.any fun keyword =>
    containsSub keyword (lowerStr (message.content.getD []))

/-- The loop's `matched_keywords = [k for k in self.keywords if k in content]`. -/
def KeywordFilter.matched_of (kf : KeywordFilter) (message : FMsg) :
    List (List Char) :=
  kf.keywords.filter fun k =>
    containsSub k (lowerStr (message.content.getD []))

/-- `KeywordFilter.filter_messages`.  The source mutates each matching
message dictionary in place (`message["matched_keywords"] = ...`) before
appending it to `filtered_messages`, so the embedding returns both the
post-call state of the input list (first component) and the returned
filtered list (second component). -/
def KeywordFilter.filter_messages (kf : KeywordFilter) :
    List FMsg → List FMsg × List FMsg
  | [] => ([], [])
  | message :: rest =>
    let res := kf.filter_messages rest
    if kf.matchesB message then
      let message' : FMsg :=
        { message with matched_keywords := some (kf.matched_of message) }
      (message' :: res.1, message' :: res.2)
    else
      (message :: res.1, res.2)

section FilterLemmas

/-- `startsWith hay needle` decides list-prefix. -/
lemma startsWith_iff (needle hay : List Char) :
    startsWith hay needle = true ↔ needle <+: hay := by
  induction needle generalizing hay with
  | nil => simp [startsWith]
  | cons n ns ih =>
    cases hay with
    | nil => simp [startsWith]
    | cons c hs =>
      simp only [startsWith, Bool.and_eq_true, decide_eq_true_eq, ih,
        List.cons_prefix_cons]
      exact and_congr_left fun _ => eq_comm

/-- `containsSub needle hay` decides substring containment. -/
lemma containsSub_iff (needle hay : List Char) :
    containsSub needle hay = true ↔ needle <:+: hay := by
  induction hay with
  | nil =>
    simp only [containsSub, startsWith_iff]
    constructor
    · intro h
      exact h.isInfix
    · intro h
      exact (List.infix_nil.mp h) ▸ List.nil_prefix
  | cons c hs ih =>
    simp only [containsSub, Bool.or_eq_true, startsWith_iff, ih,
      List.infix_cons_iff]

/-- The post-call state of the input list: each matching message is
annotated in place, each non-matching message is untouched. -/
lemma filter_messages_fst_eq (kf : KeywordFilter) (msgs : List FMsg) :
    (kf.filter_messages msgs).1 =
      msgs.map fun m =>
        if kf.matchesB m then
          { m with matched_keywords := some (kf.matched_of m) }
        else m := by
  induction msgs with
  | nil => rfl
  | cons m rest ih =>
    by_cases hm : kf.matchesB m <;>
      simp [KeywordFilter.filter_messages, hm, ih]

/-- The returned filtered list: exactly the matching messages, in input
order, each annotated with the complete matched-keyword list. -/
lemma filter_messages_snd_eq (kf : KeywordFilter) (msgs : List FMsg) :
    (kf.filter_messages msgs).2 =
      (msgs.filter fun m => kf.matchesB m).map fun m =>
        { m with matched_keywords := some (kf.matched_of m) } := by
  induction msgs with
  | nil => rfl
  | cons m rest ih =>
    by_cases hm : kf.matchesB m <;>
      simp [KeywordFilter.filter_messages, hm, ih, List.filter_cons]

/-- The survivors are a sublist (hence in unchanged relative order) of the
post-call input list. -/
lemma filter_messages_snd_sublist (kf : KeywordFilter) (msgs : List FMsg) :
    List.Sublist (kf.filter_messages msgs).2 (kf.filter_messages msgs).1 := by
  induction msgs with
  | nil => exact List.Sublist.refl _
  | cons m rest ih =>
    by_cases hm : kf.matchesB m <;>
      simp only [KeywordFilter.filter_messages, hm, if_true, if_false,
        Bool.false_eq_true, ite_true, ite_false]
    · exact ih.cons₂ _
    · exact ih.cons _

end FilterLemmas

/-! ## The Google-Sheets sink (`discord_scraper_gsheets.py`) -/

/-- A sheet cell, a Python string. -/
abbrev Cell := List Char

/-- A sheet row, as appended by `append_row`. -/
abbrev SheetRow := List Cell

/-- A message dictionary as consumed by `GoogleSheetsManager.add_message`:
every key may be absent.  `author_username` stands for
`message.get("author", {}).get("username", "Unknown")`. -/
structure SheetMsg where
  id : Option Cell
  timestamp : Option Cell
  author_username : Option Cell
  content : Option Cell
  matched_keywords : Option (List Cell)
  channel_id : Option Cell
  guild_id : Option Cell
deriving DecidableEq, Repr

/-- The `channel_info` dictionary built by `get_channel_info`; its keys may
be absent, hence `Option` fields. -/
structure ChannelInfo where
  name : Option Cell
  guild_name : Option Cell
deriving DecidableEq, Repr

/-- A remote call made by the sink: the existence lookup
(`sheet.find(message_id, in_column=1)`) or a row append
(`sheet.append_row(row)`). -/
inductive SheetOp where
  | find (message_id : Cell)
  | append (row : SheetRow)
deriving DecidableEq, Repr

namespace GoogleSheetsManager

/-- The fixed header row appended by `__init__`. -/
def headers_row : SheetRow :=
  (["Message ID", "Timestamp", "Author", "Content", "Keywords",
    "Channel ID", "Server ID", "Channel Name", "Server Name",
    "Response Status", "Response Sent", "Response Content"]).map String.toList

/-- gspread's `get_all_records()`: it reads the worksheet's first row as
the record keys and returns one record per remaining row, so it returns
the empty list exactly when the sheet holds at most one row.  Only the
record rows matter here, so the embedding returns the raw tail rows. -/
def get_all_records (store : List SheetRow) : List SheetRow := store.tail

/-- The header block of `GoogleSheetsManager.__init__`:
`if not self.sheet.get_all_records(): self.sheet.append_row(headers)`. -/
def ensure_headers (store : List SheetRow) : List SheetRow :=
  if (get_all_records store).isEmpty then store ++ [headers_row] else store

/-- `GoogleSheetsManager.message_exists`: `sheet.find(message_id, in_column=1)`
succeeds iff some row's first cell equals `message_id`. -/
def message_exists (store : List SheetRow) (message_id : Cell) : Bool :=
  store.any fun row => row.head? = some message_id

/-- Result of one `add_message` call: the store afterwards, the returned
boolean, and the remote sheet calls that were made. -/
structure AddResult where
  store : List SheetRow
  written : Bool
  ops : List SheetOp
deriving DecidableEq, Repr

/-- The `row` list literal built inside `add_message`. -/
def row_of (message : SheetMsg) (message_id : Cell)
    (channel_info : Option ChannelInfo) : SheetRow :=
  [message_id,
   message.timestamp.getD [],
   message.author_username.getD "Unknown".toList,
   (message.content.getD []).take 500,
   List.intercalate ", ".toList (message.matched_keywords.getD []),
   message.channel_id.getD [],
   message.guild_id.getD "DM".toList,
   (match channel_info with
    | some ci => ci.name.getD "Unknown".toList
    | none => "Unknown".toList),
   (match channel_info with
    | some ci => ci.guild_name.getD "DM".toList
    | none => "DM".toList),
   "Pending".toList,
   [],
   []]

/-- `GoogleSheetsManager.add_message`: reject a missing/falsy id, skip an
existing id, otherwise append the built row. -/
def add_message (store : List SheetRow) (message : SheetMsg)
    (channel_info : Option ChannelInfo) : AddResult :=
  match message.id with
  | none => ⟨store, false, []⟩
  | some message_id =>
    if message_id = [] then ⟨store, false, []⟩
    else if message_exists store message_id then
      ⟨store, false, [SheetOp.find message_id]⟩
    else
      ⟨store ++ [row_of message message_id channel_info], true,
       [SheetOp.find message_id,
        SheetOp.append (row_of message message_id channel_info)]⟩

/-- The per-message sink loop of `main`:
`for message in filtered_messages: if sheets_manager.add_message(...):
new_messages_count += 1`. -/
def sync_messages (channel_info : Option ChannelInfo) :
    List SheetRow → List SheetMsg → List SheetRow × Nat
  | store, [] => (store, 0)
  | store, message :: rest =>
    let r := add_message store message channel_info
    let res := sync_messages channel_info r.store rest
    (res.1, (if r.written then 1 else 0) + res.2)

section SinkLemmas

/-- `add_message` never removes rows: the store only grows at the end. -/
lemma add_message_store_ext (store : List SheetRow) (message : SheetMsg)
    (channel_info : Option ChannelInfo) :
    ∃ ext, (add_message store message channel_info).store = store ++ ext := by
  unfold add_message
  match h : message.id with
  | none => exact ⟨[], by simp⟩
  | some message_id =>
    by_cases h1 : message_id = [] <;> by_cases h2 : message_exists store message_id
    · exact ⟨[], by simp [h1]⟩
    · exact ⟨[], by simp [h1]⟩
    · exact ⟨[], by simp [h1, h2]⟩
    · exact ⟨[row_of message message_id channel_info], by simp [h1, h2]⟩

/-- Presence of an id in the key column survives appends. -/
lemma message_exists_append (store ext : List SheetRow) (message_id : Cell)
    (h : message_exists store message_id = true) :
    message_exists (store ++ ext) message_id = true := by
  simp only [message_exists, List.any_append, Bool.or_eq_true]
  exact Or.inl h

/-- `sync_messages` never removes rows. -/
lemma sync_messages_store_ext (channel_info : Option ChannelInfo) :
    ∀ (msgs : List SheetMsg) (store : List SheetRow),
      ∃ ext, (sync_messages channel_info store msgs).1 = store ++ ext := by
  intro msgs
  induction msgs with
  | nil => exact fun store => ⟨[], by simp [sync_messages]⟩
  | cons message rest ih =>
    intro store
    obtain ⟨ext1, h1⟩ := add_message_store_ext store message channel_info
    obtain ⟨ext2, h2⟩ := ih (add_message store message channel_info).store
    refine ⟨ext1 ++ ext2, ?_⟩
    simp only [sync_messages]
    rw [h2, h1, List.append_assoc]

/-- After an `add_message` call with a valid id, the id is in the store. -/
lemma add_message_present (store : List SheetRow) (message : SheetMsg)
    (channel_info : Option ChannelInfo) (message_id : Cell)
    (hid : message.id = some message_id) (hne : message_id ≠ []) :
    message_exists (add_message store message channel_info).store message_id
      = true := by
  unfold add_message
  rw [hid]
  by_cases h2 : message_exists store message_id
  · simp [hne, h2]
  · simp only [hne, if_false, h2, Bool.false_eq_true]
    simp [message_exists, row_of, List.any_append]

end SinkLemmas

end GoogleSheetsManager

namespace GoogleSheetsManager

/-- Every message of the batch that carries a valid id is present in the
store after `sync_messages`. -/
lemma sync_messages_present (channel_info : Option ChannelInfo) :
    ∀ (msgs : List SheetMsg) (store : List SheetRow) (message : SheetMsg)
      (message_id : Cell),
      message ∈ msgs → message.id = some message_id → message_id ≠ [] →
      message_exists (sync_messages channel_info store msgs).1 message_id
        = true := by
  intro msgs
  induction msgs with
  | nil => intro _ _ _ h; exact absurd h (List.not_mem_nil _)
  | cons m rest ih =>
    intro store message message_id hmem hid hne
    simp only [sync_messages]
    rcases List.mem_cons.mp hmem with heq | hmem'
    · subst heq
      obtain ⟨ext, hext⟩ :=
        sync_messages_store_ext channel_info rest
          (add_message store message channel_info).store
      rw [hext]
      exact message_exists_append _ _ _
        (add_message_present store message channel_info message_id hid hne)
    · exact ih _ message message_id hmem' hid hne

/-- A message whose id is already in the key column is skipped: no append,
return value `False`, store untouched. -/
lemma add_message_skip (store : List SheetRow) (message : SheetMsg)
    (channel_info : Option ChannelInfo) (message_id : Cell)
    (hid : message.id = some message_id) (hne : message_id ≠ [])
    (hex : message_exists store message_id = true) :
    add_message store message channel_info =
      ⟨store, false, [SheetOp.find message_id]⟩ := by
  unfold add_message
  rw [hid]
  simp [hne, hex]

/-- A batch whose every valid-id member is already present writes nothing. -/
lemma sync_messages_noop (channel_info : Option ChannelInfo) :
    ∀ (msgs : List SheetMsg) (store : List SheetRow),
      (∀ message ∈ msgs, ∀ message_id : Cell,
        message.id = some message_id → message_id ≠ [] →
        message_exists store message_id = true) →
      sync_messages channel_info store msgs = (store, 0) := by
  intro msgs
  induction msgs with
  | nil => intro store _; rfl
  | cons m rest ih =>
    intro store hall
    have hstore : (add_message store m channel_info).store = store := by
      unfold add_message
      match h : m.id with
      | none => rfl
      | some message_id =>
        by_cases hne : message_id = []
        · simp [hne]
        · have hex := hall m (List.mem_cons_self _ _) message_id h hne
          simp [hne, hex]
    have hwritten : (add_message store m channel_info).written = false := by
      unfold add_message
      match h : m.id with
      | none => rfl
      | some message_id =>
        by_cases hne : message_id = []
        · simp [hne]
        · have hex := hall m (List.mem_cons_self _ _) message_id h hne
          simp [hne, hex]
    have htail := ih store fun message hmem =>
      hall message (List.mem_cons_of_mem _ hmem)
    simp only [sync_messages, hstore, hwritten, htail]
    simp

end GoogleSheetsManager

/-! ## The paginated fetcher (`DiscordScraper.fetch_messages`) -/

/-- A message as handled by the fetch loop: only its `id` drives the
cursor. -/
structure DMsg where
  id : String
deriving DecidableEq, Repr

/-- The query parameters of one page request:
`params = {"limit": 100}` plus `params["before"] = before_id` when
`before_id` is truthy. -/
structure PageRequest where
  limit : Nat
  before : Option String
deriving DecidableEq, Repr

/-- The outcome of one `session.get`: either a response carrying a status,
the optional rate-limit headers (`X-RateLimit-Remaining`,
`X-RateLimit-Reset-After`, `Retry-After`) and a JSON body, or a
transport-level exception. -/
inductive HttpOutcome where
  | resp (status : Nat) (remaining : Option Int) (resetAfter : Option ℚ)
      (retryAfter : Option ℚ) (body : List DMsg)
  | exn
deriving DecidableEq, Repr

/-- The mutable state of the `while True` loop: `messages`, `before_id`,
and the scraper's rate-limit fields, plus the current wall-clock time
(advanced by each `asyncio.sleep`). -/
structure LoopState where
  messages : List DMsg
  before_id : Option String
  rate_limit_remaining : Int
  rate_limit_reset : ℚ
  now : ℚ
deriving DecidableEq, Repr

/-- Observable side effects of a fetch: the page requests issued and the
durations slept. -/
structure Trace where
  requests : List PageRequest
  sleeps : List ℚ
deriving DecidableEq, Repr

/-- Python truthiness of `before_id` in `if before_id: params["before"] =
before_id`: `None` and the empty string omit the parameter. -/
def beforeParam : Option String → Option String
  | none => none
  | some s => if s = "" then none else some s

/-- The request parameters built from the current cursor. -/
def pageRequest (before_id : Option String) : PageRequest :=
  ⟨100, beforeParam before_id⟩

/-- `if max_messages and len(messages) >= max_messages:` — Python falsiness
makes `None` and `0` mean "no cap". -/
def capReached (max_messages : Option Nat) (count : Nat) : Bool :=
  match max_messages with
  | none => false
  | some m => !(m == 0) && decide (m ≤ count)

/-- Outcome of one iteration of the `while True` loop: either the loop
breaks with the final message list, or it continues with updated state. -/
inductive StepOut (σ : Type) where
  | done (messages : List DMsg) (tr : Trace)
  | next (sv : σ) (st : LoopState) (tr : Trace)

/-- One iteration of `DiscordScraper.fetch_messages`'s `while True` loop:
rate-limit pacing, the page request, header bookkeeping, and the
status dispatch (200 / 429 / other / exception).  The remote side is a
stateful `respond` function over server state `σ`. -/
def fetchStep {σ : Type} (respond : σ → PageRequest → HttpOutcome × σ)
    (max_messages : Option Nat) (sv : σ) (st : LoopState) (tr : Trace) :
    StepOut σ :=
  let pace : ℚ :=
    if st.rate_limit_remaining ≤ 0 then max 0 (st.rate_limit_reset - st.now)
    else 0
  let tr1 : Trace := if 0 < pace then ⟨tr.requests, tr.sleeps ++ [pace]⟩ else tr
  let st1 : LoopState := { st with now := st.now + pace }
  let req := pageRequest st1.before_id
  let tr2 : Trace := ⟨tr1.requests ++ [req], tr1.sleeps⟩
  match respond sv req with
  | (HttpOutcome.exn, _) => StepOut.done st1.messages tr2
  | (HttpOutcome.resp status remaining resetAfter retryAfter body, sv') =>
    let st2 : LoopState :=
      { st1 with
        rate_limit_remaining := remaining.getD 5,
        rate_limit_reset :=
          match resetAfter with
          | some ra => st1.now + ra
          | none => st1.rate_limit_reset }
    if status = 200 then
      if body.isEmpty then StepOut.done st2.messages tr2
      else
        let msgs' := st2.messages ++ body
        if capReached max_messages msgs'.length then
          StepOut.done (msgs'.take (max_messages.getD 0)) tr2
        else
          StepOut.next sv'
            { st2 with
              messages := msgs',
              before_id := (body.getLast?).map DMsg.id } tr2
    else if status = 429 then
      StepOut.next sv'
        { st2 with now := st2.now + retryAfter.getD 5 }
        ⟨tr2.requests, tr2.sleeps ++ [retryAfter.getD 5]⟩
    else
      StepOut.done st2.messages tr2

/-- The `while True` loop itself, with a fuel bound (`none` when the fuel
runs out before the loop breaks). -/
def fetchLoop {σ : Type} (respond : σ → PageRequest → HttpOutcome × σ)
    (max_messages : Option Nat) :
    Nat → σ → LoopState → Trace → Option (List DMsg × Trace)
  | 0, _, _, _ => none
  | fuel + 1, sv, st, tr =>
    match fetchStep respond max_messages sv st tr with
    | StepOut.done messages tr' => some (messages, tr')
    | StepOut.next sv' st' tr' => fetchLoop respond max_messages fuel sv' st' tr'

/-- The loop's initial state: `messages = []`, `before_id = None`, and the
scraper's `__init__` values `rate_limit_remaining = 5`,
`rate_limit_reset = 0`. -/
def initState : LoopState := ⟨[], none, 5, 0, 0⟩

/-- Discord's `before` filter: the messages strictly older than (i.e.
listed after) the first message with the given id. -/
def afterId : List DMsg → String → List DMsg
  | [], _ => []
  | m :: rest, b => if m.id = b then rest else afterId rest b

/-- A page of up to `limit=100` messages from a newest-first history. -/
def pageOf (history : List DMsg) : Option String → List DMsg
  | none => history.take 100
  | some b => (afterId history b).take 100

/-- A well-behaved remote channel: every page request is answered 200 with
the cursor-selected page and fresh rate-limit headers. -/
def historyServer (history : List DMsg) :
    Unit → PageRequest → HttpOutcome × Unit :=
  fun _ req => (HttpOutcome.resp 200 (some 5) none none (pageOf history req.before), ())

/-- A scripted remote side: responses are consumed in order. -/
def scriptServer :
    List HttpOutcome → PageRequest → HttpOutcome × List HttpOutcome
  | [], _ => (HttpOutcome.exn, [])
  | o :: rest, _ => (o, rest)

/-- `DiscordScraper.fetch_messages` against a well-behaved channel
history. -/
def fetch_messages (history : List DMsg) (max_messages : Option Nat)
    (fuel : Nat) : Option (List DMsg × Trace) :=
  fetchLoop (historyServer history) max_messages fuel () initState ⟨[], []⟩

section FetchStepLemmas

/-- A transport-level exception ends the walk at once with the accumulated
messages. -/
lemma fetchStep_exn {σ : Type} (respond : σ → PageRequest → HttpOutcome × σ)
    (max_messages : Option Nat) (sv sv' : σ) (st : LoopState) (tr : Trace)
    (hrl : 0 < st.rate_limit_remaining)
    (hresp : respond sv (pageRequest st.before_id) = (HttpOutcome.exn, sv')) :
    fetchStep respond max_messages sv st tr =
      StepOut.done st.messages
        ⟨tr.requests ++ [pageRequest st.before_id], tr.sleeps⟩ := by
  have h1 : ¬ st.rate_limit_remaining ≤ 0 := not_le.mpr hrl
  simp [fetchStep, h1, hresp]

/-- A response with a status other than 200 and 429 ends the walk at once
with the accumulated messages. -/
lemma fetchStep_status_other {σ : Type}
    (respond : σ → PageRequest → HttpOutcome × σ)
    (max_messages : Option Nat) (sv sv' : σ) (st : LoopState) (tr : Trace)
    (status : Nat) (remaining : Option Int) (resetAfter retryAfter : Option ℚ)
    (body : List DMsg)
    (hrl : 0 < st.rate_limit_remaining)
    (hresp : respond sv (pageRequest st.before_id) =
      (HttpOutcome.resp status remaining resetAfter retryAfter body, sv'))
    (h200 : status ≠ 200) (h429 : status ≠ 429) :
    fetchStep respond max_messages sv st tr =
      StepOut.done st.messages
        ⟨tr.requests ++ [pageRequest st.before_id], tr.sleeps⟩ := by
  have h1 : ¬ st.rate_limit_remaining ≤ 0 := not_le.mpr hrl
  simp [fetchStep, h1, hresp, h200, h429]

/-- A 429 response sleeps for the `Retry-After` duration (default 5) and
loops again with the cursor and accumulated messages unchanged. -/
lemma fetchStep_429 {σ : Type} (respond : σ → PageRequest → HttpOutcome × σ)
    (max_messages : Option Nat) (sv sv' : σ) (st : LoopState) (tr : Trace)
    (remaining : Option Int) (resetAfter retryAfter : Option ℚ)
    (body : List DMsg)
    (hrl : 0 < st.rate_limit_remaining)
    (hresp : respond sv (pageRequest st.before_id) =
      (HttpOutcome.resp 429 remaining resetAfter retryAfter body, sv')) :
    fetchStep respond max_messages sv st tr =
      StepOut.next sv'
        ⟨st.messages, st.before_id, remaining.getD 5,
         (match resetAfter with
          | some ra => st.now + ra
          | none => st.rate_limit_reset),
         st.now + retryAfter.getD 5⟩
        ⟨tr.requests ++ [pageRequest st.before_id],
         tr.sleeps ++ [retryAfter.getD 5]⟩ := by
  have h1 : ¬ st.rate_limit_remaining ≤ 0 := not_le.mpr hrl
  simp [fetchStep, h1, hresp]
  cases resetAfter <;> rfl

/-- One loop iteration against a well-behaved channel history. -/
lemma fetchStep_history (history : List DMsg) (max_messages : Option Nat)
    (st : LoopState) (tr : Trace) (hrl : 0 < st.rate_limit_remaining) :
    fetchStep (historyServer history) max_messages () st tr =
      (if (pageOf history (beforeParam st.before_id)).isEmpty then
        StepOut.done st.messages
          ⟨tr.requests ++ [pageRequest st.before_id], tr.sleeps⟩
      else if capReached max_messages
          (st.messages ++ pageOf history (beforeParam st.before_id)).length then
        StepOut.done
          ((st.messages ++ pageOf history (beforeParam st.before_id)).take
            (max_messages.getD 0))
          ⟨tr.requests ++ [pageRequest st.before_id], tr.sleeps⟩
      else
        StepOut.next ()
          ⟨st.messages ++ pageOf history (beforeParam st.before_id),
           ((pageOf history (beforeParam st.before_id)).getLast?).map DMsg.id,
           5, st.rate_limit_reset, st.now⟩
          ⟨tr.requests ++ [pageRequest st.before_id], tr.sleeps⟩) := by
  have h1 : ¬ st.rate_limit_remaining ≤ 0 := not_le.mpr hrl
  simp only [fetchStep, historyServer, pageRequest, h1, if_false]
  simp

end FetchStepLemmas

section HistoryWalk

/-- The `before` cursor selects exactly the part after its (unique) first
occurrence. -/
lemma afterId_of_append (q : List DMsg) (a : DMsg) (rest : List DMsg)
    (h : a.id ∉ q.map DMsg.id) :
    afterId (q ++ a :: rest) a.id = rest := by
  induction q with
  | nil => simp [afterId]
  | cons m q ih =>
    simp only [List.map_cons, List.mem_cons, not_or] at h
    have hm : ¬ m.id = a.id := fun contra => h.1 contra.symm
    simp only [List.cons_append, afterId, hm, if_false]
    exact ih h.2

/-- With the cursor at the last already-fetched message, the next page is
the first 100 messages of the remaining suffix. -/
lemma pageOf_cursor (history pre rest : List DMsg)
    (hsplit : history = pre ++ rest)
    (hnd : (history.map DMsg.id).Nodup)
    (hne : ∀ m ∈ history, m.id ≠ "") :
    pageOf history (beforeParam (pre.getLast?.map DMsg.id)) = rest.take 100 := by
  rcases List.eq_nil_or_concat pre with hpre | ⟨q, a, hpre⟩
  · subst hpre
    simp [pageOf, beforeParam, hsplit]
  · subst hpre
    simp only [List.concat_eq_append] at hsplit ⊢
    have hsplit' : history = q ++ a :: rest := by
      rw [hsplit, List.append_assoc]
      rfl
    have hmem : a ∈ history := by
      rw [hsplit']
      simp
    have haid : a.id ≠ "" := hne a hmem
    have hnotin : a.id ∉ q.map DMsg.id := by
      intro hin
      have hnd' : (q.map DMsg.id ++ a.id :: rest.map DMsg.id).Nodup := by
        rw [hsplit'] at hnd
        simpa using hnd
      exact (List.nodup_append.mp hnd').2.2 hin (List.mem_cons_self _ _)
    rw [List.getLast?_concat]
    simp only [Option.map_some', beforeParam, haid, if_false]
    simp only [pageOf]
    rw [hsplit', afterId_of_append _ _ _ hnotin]

end HistoryWalk

section HistoryLoop

/-- Without a cap, the loop walks the whole history and returns it. -/
lemma fetchLoop_history_exhaust (history : List DMsg)
    (hnd : (history.map DMsg.id).Nodup)
    (hne : ∀ m ∈ history, m.id ≠ "")
    (max_messages : Option Nat)
    (hmm : ∀ n, capReached max_messages n = false) :
    ∀ (fuel : Nat) (pre rest : List DMsg) (st : LoopState) (tr : Trace),
      history = pre ++ rest →
      st.messages = pre →
      st.before_id = pre.getLast?.map DMsg.id →
      0 < st.rate_limit_remaining →
      rest.length < fuel →
      ∃ tr', fetchLoop (historyServer history) max_messages fuel () st tr =
        some (history, tr') := by
  intro fuel
  induction fuel with
  | zero =>
    intro pre rest st tr _ _ _ _ hlt
    exact absurd hlt (by omega)
  | succ fuel ih =>
    intro pre rest st tr hsplit hmsgs hbefore hrl hlt
    have hpage : pageOf history (beforeParam st.before_id) = rest.take 100 := by
      rw [hbefore]
      exact pageOf_cursor history pre rest hsplit hnd hne
    have hstep := fetchStep_history history max_messages st tr hrl
    rw [hpage] at hstep
    cases rest with
    | nil =>
      simp only [List.take_nil, List.isEmpty_nil, if_true] at hstep
      refine ⟨⟨tr.requests ++ [pageRequest st.before_id], tr.sleeps⟩, ?_⟩
      simp only [fetchLoop, hstep, hmsgs]
      rw [hsplit]
      simp
    | cons r rest' =>
      have htk : (r :: rest').take 100 ≠ [] := by simp
      have hempty : ((r :: rest').take 100).isEmpty = false := by
        simp [List.isEmpty_iff]
      rw [hempty] at hstep
      rw [hmm] at hstep
      simp only [Bool.false_eq_true, if_false] at hstep
      have hsplit2 : history = (pre ++ (r :: rest').take 100) ++ (r :: rest').drop 100 := by
        rw [hsplit, List.append_assoc, List.take_append_drop]
      have hbefore2 :
          (((r :: rest').take 100).getLast?).map DMsg.id =
            ((pre ++ (r :: rest').take 100).getLast?).map DMsg.id := by
        rw [List.getLast?_append, List.getLast?_eq_getLast _ htk]
        rfl
      have hlt2 : ((r :: rest').drop 100).length < fuel := by
        rw [List.length_drop]
        simp only [List.length_cons] at hlt ⊢
        omega
      obtain ⟨tr', htr'⟩ := ih (pre ++ (r :: rest').take 100) ((r :: rest').drop 100)
        ⟨st.messages ++ (r :: rest').take 100,
         (((r :: rest').take 100).getLast?).map DMsg.id,
         5, st.rate_limit_reset, st.now⟩
        ⟨tr.requests ++ [pageRequest st.before_id], tr.sleeps⟩
        hsplit2 (by simp [hmsgs]) (by simpa using hbefore2) (by norm_num)
        hlt2
      refine ⟨tr', ?_⟩
      simp only [fetchLoop, hstep]
      exact htr'

/-- With a positive cap `N` not exceeding the history length, the loop
returns exactly the first `N` messages. -/
lemma fetchLoop_history_cap (history : List DMsg)
    (hnd : (history.map DMsg.id).Nodup)
    (hne : ∀ m ∈ history, m.id ≠ "")
    (N : Nat) (hN : 0 < N) :
    ∀ (fuel : Nat) (pre rest : List DMsg) (st : LoopState) (tr : Trace),
      history = pre ++ rest →
      st.messages = pre →
      st.before_id = pre.getLast?.map DMsg.id →
      0 < st.rate_limit_remaining →
      pre.length < N →
      N ≤ history.length →
      rest.length < fuel →
      ∃ tr', fetchLoop (historyServer history) (some N) fuel () st tr =
        some (history.take N, tr') := by
  intro fuel
  induction fuel with
  | zero =>
    intro pre rest st tr _ _ _ _ _ _ hlt
    exact absurd hlt (by omega)
  | succ fuel ih =>
    intro pre rest st tr hsplit hmsgs hbefore hrl hpre hNlen hlt
    have hrest : rest ≠ [] := by
      intro hnil
      rw [hnil, List.append_nil] at hsplit
      rw [hsplit] at hNlen
      omega
    have hpage : pageOf history (beforeParam st.before_id) = rest.take 100 := by
      rw [hbefore]
      exact pageOf_cursor history pre rest hsplit hnd hne
    have hstep := fetchStep_history history (some N) st tr hrl
    rw [hpage] at hstep
    have htk : rest.take 100 ≠ [] := by
      simp [List.take_eq_nil_iff, hrest]
    have hempty : (rest.take 100).isEmpty = false := by
      simp [List.isEmpty_iff, htk]
    rw [hempty] at hstep
    simp only [Bool.false_eq_true, if_false] at hstep
    by_cases hcap : N ≤ (st.messages ++ rest.take 100).length
    · have hN0 : N ≠ 0 := Nat.pos_iff_ne_zero.mp hN
      have hcapb : capReached (some N) (st.messages ++ rest.take 100).length
          = true := by
        simp only [capReached, Bool.and_eq_true, bne_iff_ne, ne_eq,
          decide_eq_true_eq]
        exact ⟨by simpa using hN0, hcap⟩
      rw [hcapb] at hstep
      simp only [if_true] at hstep
      refine ⟨⟨tr.requests ++ [pageRequest st.before_id], tr.sleeps⟩, ?_⟩
      simp only [fetchLoop, hstep, Option.getD_some]
      have htake : (st.messages ++ rest.take 100).take N = history.take N := by
        rw [hmsgs] at hcap ⊢
        conv_rhs =>
          rw [hsplit, ← List.take_append_drop 100 rest, ← List.append_assoc]
        rw [List.take_append_of_le_length hcap]
      rw [htake]
    · have hcapb : capReached (some N) (st.messages ++ rest.take 100).length
          = false := by
        simp only [capReached, Bool.and_eq_false_iff]
        right
        simpa using Nat.lt_of_not_le hcap
      rw [hcapb] at hstep
      simp only [Bool.false_eq_true, if_false] at hstep
      have hsplit2 : history = (pre ++ rest.take 100) ++ rest.drop 100 := by
        rw [hsplit, List.append_assoc, List.take_append_drop]
      have hbefore2 :
          ((rest.take 100).getLast?).map DMsg.id =
            ((pre ++ rest.take 100).getLast?).map DMsg.id := by
        rw [List.getLast?_append, List.getLast?_eq_getLast _ htk]
        rfl
      have hpre2 : (pre ++ rest.take 100).length < N := by
        rw [hmsgs] at hcap
        simpa using Nat.lt_of_not_le hcap
      have hlt2 : (rest.drop 100).length < fuel := by
        rw [List.length_drop]
        have : rest.length ≠ 0 := by
          simpa [List.length_eq_zero] using hrest
        omega
      obtain ⟨tr', htr'⟩ := ih (pre ++ rest.take 100) (rest.drop 100)
        ⟨st.messages ++ rest.take 100,
         ((rest.take 100).getLast?).map DMsg.id,
         5, st.rate_limit_reset, st.now⟩
        ⟨tr.requests ++ [pageRequest st.before_id], tr.sleeps⟩
        hsplit2 (by simp [hmsgs]) (by simpa using hbefore2) (by norm_num)
        hpre2 hNlen hlt2
      refine ⟨tr', ?_⟩
      simp only [fetchLoop, hstep]
      exact htr'

end HistoryLoop

/-! ## Claim theorems -/

/-- The empty keyword is a substring of every content string. -/
lemma containsSub_nil (hay : List Char) : containsSub [] hay = true := by
  cases hay <;> simp [containsSub, startsWith]

/-- C6: for every message list and keyword list, `filter_messages` returns
exactly the messages whose lower-cased content contains at least one
lower-cased keyword as a substring, each returned message carrying the
complete list of keywords that matched (`containsSub` is substring
containment), and the content `"Exam Tomorrow, stuck on Q3"` against
keywords `["exam tomorrow", "stuck on"]` is returned with both attached. -/
theorem C6_keyword_matching_completeness :
    (∀ (kf : KeywordFilter) (msgs : List FMsg),
      (kf.filter_messages msgs).2 =
        (msgs.filter fun m => kf.matchesB m).map fun m =>
          { m with matched_keywords := some (kf.matched_of m) })
    ∧ (∀ (kf : KeywordFilter) (m : FMsg),
        kf.matchesB m = true ↔
          ∃ k ∈ kf.keywords, k <:+: lowerStr (m.content.getD []))
    ∧ (∀ needle hay : List Char,
        containsSub needle hay = true ↔ needle <:+: hay)
    ∧ ((KeywordFilter.init
          ["exam tomorrow".toList, "stuck on".toList]).filter_messages
        [⟨some "Exam Tomorrow, stuck on Q3".toList, none⟩]).2 =
      [⟨some "Exam Tomorrow, stuck on Q3".toList,
        some ["exam tomorrow".toList, "stuck on".toList]⟩] := by
  refine ⟨filter_messages_snd_eq, ?_, containsSub_iff, by decide⟩
  intro kf m
  simp [KeywordFilter.matchesB, List.any_eq_true, containsSub_iff]

/-- C7 counterexample: the source mutates matching input messages in
place, so the input list is not left unchanged. -/
theorem C7_counterexample_input_mutated :
    ((KeywordFilter.init ["a".toList]).filter_messages
      [⟨some "a".toList, none⟩]).1 ≠ [⟨some "a".toList, none⟩] := by
  decide

/-- C7 (amended): `filter_messages` has no effect other than annotating
each matching input message in place with its matched-keyword list
(non-matching messages are left unchanged), and the surviving messages
appear in the output in the same relative order as in the input. -/
theorem C7_filter_effect_frame :
    ∀ (kf : KeywordFilter) (msgs : List FMsg),
      (kf.filter_messages msgs).1 =
        (msgs.map fun m =>
          if kf.matchesB m then
            { m with matched_keywords := some (kf.matched_of m) }
          else m)
      ∧ List.Sublist (kf.filter_messages msgs).2 (kf.filter_messages msgs).1 :=
  fun kf msgs =>
    ⟨filter_messages_fst_eq kf msgs, filter_messages_snd_sublist kf msgs⟩

/-- C10: if the configured keyword list contains the empty string, every
message is returned (content present or not), with the empty string among
its matched keywords. -/
theorem C10_empty_keyword_matches_everything :
    ∀ (raw : List (List Char)) (msgs : List FMsg),
      [] ∈ raw →
      ((KeywordFilter.init raw).filter_messages msgs).2 =
        msgs.map (fun m =>
          { m with
            matched_keywords := some ((KeywordFilter.init raw).matched_of m) })
      ∧ ∀ m' ∈ ((KeywordFilter.init raw).filter_messages msgs).2,
          ∃ l, m'.matched_keywords = some l ∧ [] ∈ l := by
  intro raw msgs hraw
  have hmem : ([] : List Char) ∈ (KeywordFilter.init raw).keywords := by
    simp only [KeywordFilter.init, List.mem_map]
    exact ⟨[], hraw, rfl⟩
  have hall : ∀ m : FMsg, (KeywordFilter.init raw).matchesB m = true := by
    intro m
    simp only [KeywordFilter.matchesB, List.any_eq_true]
    exact ⟨[], hmem, containsSub_nil _⟩
  constructor
  · rw [filter_messages_snd_eq]
    rw [List.filter_eq_self.mpr fun a _ => hall a]
  · intro m' hm'
    rw [filter_messages_snd_eq] at hm'
    obtain ⟨m, _, rfl⟩ := List.mem_map.mp hm'
    refine ⟨(KeywordFilter.init raw).matched_of m, rfl, ?_⟩
    exact List.mem_filter.mpr ⟨hmem, containsSub_nil _⟩

/-- C10 witness: a singleton keyword list holding the empty string matches
a message with no content key at all. -/
theorem C10_empty_keyword_witness :
    ([] ∈ ([[]] : List (List Char)))
    ∧ ((KeywordFilter.init [[]]).filter_messages [⟨none, none⟩]).2
        = [⟨none, some [[]]⟩] := by
  constructor
  · exact List.mem_singleton.mpr rfl
  · have h := (C10_empty_keyword_matches_everything [[]] [⟨none, none⟩]
      (List.mem_singleton.mpr rfl)).1
    rw [h]
    decide

/-- C2 (code bug): the header check uses `get_all_records()`, which is
empty whenever the sheet holds at most one row, so a store holding only
the header row — which is nonempty — gets a second header appended; only
the direction "empty store ⇒ header written" holds. -/
theorem C2_header_duplicated_on_header_only_store :
    ([GoogleSheetsManager.headers_row] : List SheetRow) ≠ []
    ∧ GoogleSheetsManager.ensure_headers [GoogleSheetsManager.headers_row] =
        [GoogleSheetsManager.headers_row, GoogleSheetsManager.headers_row]
    ∧ GoogleSheetsManager.ensure_headers [] =
        [GoogleSheetsManager.headers_row] :=
  ⟨by simp, rfl, rfl⟩

/-- C9: a message with a missing or falsy (`None`/empty) id is rejected
up front: `add_message` returns `False`, performs no sheet call at all
(no existence lookup, no append), and leaves the store unchanged. -/
theorem C9_falsy_id_rejected :
    ∀ (store : List SheetRow) (message : SheetMsg)
      (channel_info : Option ChannelInfo),
      message.id = none ∨ message.id = some [] →
      GoogleSheetsManager.add_message store message channel_info =
        ⟨store, false, []⟩ := by
  intro store message channel_info h
  rcases h with h | h <;> simp [GoogleSheetsManager.add_message, h]

/-- C9 witness: a message dictionary with no `id` key at all. -/
theorem C9_falsy_id_witness :
    ((⟨none, none, none, none, none, none, none⟩ : SheetMsg).id = none
      ∨ (⟨none, none, none, none, none, none, none⟩ : SheetMsg).id = some [])
    ∧ GoogleSheetsManager.add_message []
        ⟨none, none, none, none, none, none, none⟩ none = ⟨[], false, []⟩ :=
  ⟨Or.inl rfl,
   C9_falsy_id_rejected [] ⟨none, none, none, none, none, none, none⟩ none
     (Or.inl rfl)⟩

/-- C8: every data row appended by `add_message` has exactly 12 columns in
schema order with the message id first, the Content column truncated to at
most 500 characters, the Keywords column comma-joined, and the trailing
columns `"Pending"`, `""`, `""`. -/
theorem C8_sink_row_shape :
    ∀ (store : List SheetRow) (message : SheetMsg)
      (channel_info : Option ChannelInfo) (message_id : Cell),
      message.id = some message_id → message_id ≠ [] →
      GoogleSheetsManager.message_exists store message_id = false →
      GoogleSheetsManager.add_message store message channel_info =
        ⟨store ++ [GoogleSheetsManager.row_of message message_id channel_info],
         true,
         [SheetOp.find message_id,
          SheetOp.append
            (GoogleSheetsManager.row_of message message_id channel_info)]⟩
      ∧ (GoogleSheetsManager.row_of message message_id channel_info).length = 12
      ∧ (GoogleSheetsManager.row_of message message_id channel_info).head? =
          some message_id
      ∧ (GoogleSheetsManager.row_of message message_id channel_info).get? 3 =
          some ((message.content.getD []).take 500)
      ∧ ((message.content.getD []).take 500).length ≤ 500
      ∧ (GoogleSheetsManager.row_of message message_id channel_info).get? 4 =
          some (List.intercalate ", ".toList (message.matched_keywords.getD []))
      ∧ (GoogleSheetsManager.row_of message message_id channel_info).get? 9 =
          some "Pending".toList
      ∧ (GoogleSheetsManager.row_of message message_id channel_info).get? 10 =
          some []
      ∧ (GoogleSheetsManager.row_of message message_id channel_info).get? 11 =
          some [] := by
  intro store message channel_info message_id hid hne hex
  refine ⟨?_, rfl, rfl, rfl, ?_, rfl, rfl, rfl, rfl⟩
  · simp [GoogleSheetsManager.add_message, hid, hne, hex]
  · rw [List.length_take]
    exact min_le_left _ _

/-- C8 witness: a fresh message appended to an empty store. -/
theorem C8_sink_row_shape_witness :
    ((⟨some "1".toList, none, none, none, none, none, none⟩ : SheetMsg).id
        = some "1".toList)
    ∧ GoogleSheetsManager.add_message []
        ⟨some "1".toList, none, none, none, none, none, none⟩ none =
      ⟨[GoogleSheetsManager.row_of
          ⟨some "1".toList, none, none, none, none, none, none⟩
          "1".toList none],
       true,
       [SheetOp.find "1".toList,
        SheetOp.append (GoogleSheetsManager.row_of
          ⟨some "1".toList, none, none, none, none, none, none⟩
          "1".toList none)]⟩ := by
  refine ⟨rfl, ?_⟩
  have h := C8_sink_row_shape []
    ⟨some "1".toList, none, none, none, none, none, none⟩ none "1".toList
    rfl (by decide) rfl
  simpa using h.1

/-- C1: running the sink over the same message set a second time writes
zero new rows and leaves the store's row count (indeed the store itself)
unchanged, and any message whose id is already present in the store's
first column is skipped without any append. -/
theorem C1_idempotent_sync :
    ∀ (channel_info : Option ChannelInfo) (store : List SheetRow)
      (msgs : List SheetMsg),
      (GoogleSheetsManager.sync_messages channel_info
          (GoogleSheetsManager.sync_messages channel_info store msgs).1 msgs).2
        = 0
      ∧ (GoogleSheetsManager.sync_messages channel_info
          (GoogleSheetsManager.sync_messages channel_info store msgs).1
          msgs).1.length
        = (GoogleSheetsManager.sync_messages channel_info store msgs).1.length
      ∧ (∀ (message : SheetMsg) (message_id : Cell),
          message.id = some message_id → message_id ≠ [] →
          GoogleSheetsManager.message_exists store message_id = true →
          GoogleSheetsManager.add_message store message channel_info =
            ⟨store, false, [SheetOp.find message_id]⟩) := by
  intro channel_info store msgs
  have hnoop := GoogleSheetsManager.sync_messages_noop channel_info msgs
    (GoogleSheetsManager.sync_messages channel_info store msgs).1
    (fun message hmem message_id hid hne =>
      GoogleSheetsManager.sync_messages_present channel_info msgs store message
        message_id hmem hid hne)
  refine ⟨by rw [hnoop], by rw [hnoop], ?_⟩
  intro message message_id hid hne hex
  exact GoogleSheetsManager.add_message_skip store message channel_info
    message_id hid hne hex

/-- C1 witness: a one-message batch re-synced against its own output, and
a skip against a store already holding the id. -/
theorem C1_idempotent_sync_witness :
    (GoogleSheetsManager.sync_messages none
        (GoogleSheetsManager.sync_messages none []
          [⟨some "1".toList, none, none, none, none, none, none⟩]).1
        [⟨some "1".toList, none, none, none, none, none, none⟩]).2 = 0
    ∧ GoogleSheetsManager.message_exists [["1".toList]] "1".toList = true
    ∧ GoogleSheetsManager.add_message [["1".toList]]
        ⟨some "1".toList, none, none, none, none, none, none⟩ none =
      ⟨[["1".toList]], false, [SheetOp.find "1".toList]⟩ := by
  refine ⟨(C1_idempotent_sync none [] _).1, by decide, ?_⟩
  exact (C1_idempotent_sync none [["1".toList]] []).2.2
    ⟨some "1".toList, none, none, none, none, none, none⟩ "1".toList rfl
    (by decide) (by decide)

/-- A 200 response with an empty body ends the walk with the accumulated
messages. -/
lemma fetchStep_200_empty {σ : Type}
    (respond : σ → PageRequest → HttpOutcome × σ)
    (max_messages : Option Nat) (sv sv' : σ) (st : LoopState) (tr : Trace)
    (remaining : Option Int) (resetAfter retryAfter : Option ℚ)
    (hrl : 0 < st.rate_limit_remaining)
    (hresp : respond sv (pageRequest st.before_id) =
      (HttpOutcome.resp 200 remaining resetAfter retryAfter [], sv')) :
    fetchStep respond max_messages sv st tr =
      StepOut.done st.messages
        ⟨tr.requests ++ [pageRequest st.before_id], tr.sleeps⟩ := by
  have h1 : ¬ st.rate_limit_remaining ≤ 0 := not_le.mpr hrl
  simp [fetchStep, h1, hresp]

/-- C5: a response with any non-success status other than 429, and any
transport-level exception, terminates the walk immediately: the loop
returns exactly the messages accumulated so far as a normal value (no
error, no extra sleeps). -/
theorem C5_partial_results_on_failure :
    ∀ {σ : Type} (respond : σ → PageRequest → HttpOutcome × σ)
      (max_messages : Option Nat) (fuel : Nat) (sv sv' : σ)
      (st : LoopState) (tr : Trace),
      0 < st.rate_limit_remaining →
      ((∀ (status : Nat) (remaining : Option Int)
          (resetAfter retryAfter : Option ℚ) (body : List DMsg),
          respond sv (pageRequest st.before_id) =
            (HttpOutcome.resp status remaining resetAfter retryAfter body, sv') →
          status ≠ 200 → status ≠ 429 →
          fetchLoop respond max_messages (fuel + 1) sv st tr =
            some (st.messages,
              ⟨tr.requests ++ [pageRequest st.before_id], tr.sleeps⟩))
        ∧ (respond sv (pageRequest st.before_id) = (HttpOutcome.exn, sv') →
          fetchLoop respond max_messages (fuel + 1) sv st tr =
            some (st.messages,
              ⟨tr.requests ++ [pageRequest st.before_id], tr.sleeps⟩))) := by
  intro σ respond max_messages fuel sv sv' st tr hrl
  constructor
  · intro status remaining resetAfter retryAfter body hresp h200 h429
    have hstep := fetchStep_status_other respond max_messages sv sv' st tr
      status remaining resetAfter retryAfter body hrl hresp h200 h429
    simp only [fetchLoop, hstep]
  · intro hresp
    have hstep := fetchStep_exn respond max_messages sv sv' st tr hrl hresp
    simp only [fetchLoop, hstep]

/-- C5 witness: a scripted 500 response returns the (empty) accumulation
as a normal value after a single request. -/
theorem C5_partial_results_witness :
    fetchLoop scriptServer none 1
      [HttpOutcome.resp 500 none none none []] initState ⟨[], []⟩ =
      some ([], ⟨[pageRequest none], []⟩) := by
  have h := (C5_partial_results_on_failure scriptServer none 0
    [HttpOutcome.resp 500 none none none []] [] initState ⟨[], []⟩
    (by decide)).1 500 none none none [] rfl (by decide) (by decide)
  simpa [initState] using h

/-- C4: a 429 response makes the loop sleep for the response's
`Retry-After` duration (5 seconds when the header is absent) and repeat
with the cursor and the accumulated message list unchanged, so the next
request is identical; a scripted 429-then-200 run issues exactly two
identical requests, sleeps once for the specified delay, and ends
normally. -/
theorem C4_throttle_retry :
    (∀ {σ : Type} (respond : σ → PageRequest → HttpOutcome × σ)
      (max_messages : Option Nat) (fuel : Nat) (sv sv' : σ)
      (st : LoopState) (tr : Trace)
      (remaining : Option Int) (resetAfter retryAfter : Option ℚ)
      (body : List DMsg),
      0 < st.rate_limit_remaining →
      respond sv (pageRequest st.before_id) =
        (HttpOutcome.resp 429 remaining resetAfter retryAfter body, sv') →
      ∃ st' : LoopState,
        fetchLoop respond max_messages (fuel + 1) sv st tr =
          fetchLoop respond max_messages fuel sv' st'
            ⟨tr.requests ++ [pageRequest st.before_id],
             tr.sleeps ++ [retryAfter.getD 5]⟩
        ∧ st'.messages = st.messages
        ∧ st'.before_id = st.before_id
        ∧ pageRequest st'.before_id = pageRequest st.before_id)
    ∧ (∀ r : ℚ,
        fetchLoop scriptServer none 2
          [HttpOutcome.resp 429 (some 5) none (some r) [],
           HttpOutcome.resp 200 (some 5) none none []]
          initState ⟨[], []⟩ =
          some ([], ⟨[pageRequest none, pageRequest none], [r]⟩))
    ∧ (fetchLoop scriptServer none 2
          [HttpOutcome.resp 429 (some 5) none none [],
           HttpOutcome.resp 200 (some 5) none none []]
          initState ⟨[], []⟩ =
          some ([], ⟨[pageRequest none, pageRequest none], [5]⟩)) := by
  refine ⟨?_, ?_, ?_⟩
  · intro σ respond max_messages fuel sv sv' st tr remaining resetAfter
      retryAfter body hrl hresp
    rcases resetAfter with _ | ra
    · have hstep := fetchStep_429 respond max_messages sv sv' st tr
        remaining none retryAfter body hrl hresp
      refine ⟨⟨st.messages, st.before_id, remaining.getD 5,
        st.rate_limit_reset, st.now + retryAfter.getD 5⟩, ?_, rfl, rfl, rfl⟩
      simp only [fetchLoop, hstep]
    · have hstep := fetchStep_429 respond max_messages sv sv' st tr
        remaining (some ra) retryAfter body hrl hresp
      refine ⟨⟨st.messages, st.before_id, remaining.getD 5,
        st.now + ra, st.now + retryAfter.getD 5⟩, ?_, rfl, rfl, rfl⟩
      simp only [fetchLoop, hstep]
  · intro r
    simp [fetchLoop, fetchStep, scriptServer, initState, pageRequest,
      beforeParam]
  · simp [fetchLoop, fetchStep, scriptServer, initState, pageRequest,
      beforeParam]

/-- C4 witness: the retry step applied to a concrete scripted 429. -/
theorem C4_throttle_retry_witness :
    ∃ st' : LoopState,
      fetchLoop scriptServer none 1
        [HttpOutcome.resp 429 (some 5) none (some 7) []] initState ⟨[], []⟩ =
        fetchLoop scriptServer none 0 [] st'
          ⟨([] : List PageRequest) ++ [pageRequest initState.before_id],
           ([] : List ℚ) ++ [(some (7 : ℚ)).getD 5]⟩
      ∧ st'.messages = initState.messages
      ∧ st'.before_id = initState.before_id
      ∧ pageRequest st'.before_id = pageRequest initState.before_id :=
  C4_throttle_retry.1 scriptServer none 0
    [HttpOutcome.resp 429 (some 5) none (some 7) []] [] initState ⟨[], []⟩
    (some 5) none (some 7) [] (by decide) rfl

/-- C3: against any well-formed channel history (distinct, nonempty ids)
with at least `N` messages, `fetch_messages` with cap `N > 0` returns
exactly the first `N` messages in original newest-first order; with the
cap unset (`None`) or `0`, it fetches until exhausted and returns the
whole history. -/
theorem C3_cap_respected :
    ∀ (history : List DMsg),
      (history.map DMsg.id).Nodup →
      (∀ m ∈ history, m.id ≠ "") →
      (∀ N : Nat, 0 < N → N ≤ history.length →
        ∃ tr, fetch_messages history (some N) (history.length + 2) =
          some (history.take N, tr))
      ∧ (∀ max_messages : Option Nat,
          max_messages = none ∨ max_messages = some 0 →
          ∃ tr, fetch_messages history max_messages (history.length + 2) =
            some (history, tr)) := by
  intro history hnd hne
  constructor
  · intro N hN hNlen
    exact fetchLoop_history_cap history hnd hne N hN (history.length + 2) []
      history initState ⟨[], []⟩ rfl rfl rfl (by decide)
      (by simpa using hN) hNlen (by omega)
  · intro max_messages hmm0
    have hcap : ∀ n, capReached max_messages n = false := by
      rcases hmm0 with rfl | rfl <;> intro n <;> simp [capReached]
    exact fetchLoop_history_exhaust history hnd hne max_messages hcap
      (history.length + 2) [] history initState ⟨[], []⟩ rfl rfl rfl
      (by decide) (by omega)

/-- C3 witness: a three-message history capped at 2 returns the two newest
messages. -/
theorem C3_cap_respected_witness :
    ∃ tr, fetch_messages [⟨"3"⟩, ⟨"2"⟩, ⟨"1"⟩] (some 2)
      (([⟨"3"⟩, ⟨"2"⟩, ⟨"1"⟩] : List DMsg).length + 2) =
      some (([⟨"3"⟩, ⟨"2"⟩, ⟨"1"⟩] : List DMsg).take 2, tr) :=
  (C3_cap_respected [⟨"3"⟩, ⟨"2"⟩, ⟨"1"⟩] (by decide) (by decide)).1 2
    (by decide) (by decide)
